import Mathlib

/-
  Verification of behavioral claims about the portal_smartAudit pipeline.

  Each Python module relevant to a claim is shallowly embedded as Lean
  definitions: pure functions become Lean functions, pandas DataFrames become
  lists of row records, Python floats become exact rationals (the claims under
  study are about control flow, comparisons and exact decimal boundaries, not
  float rounding), fallible code returns Option/Except, and external
  collaborators that are passed in as arguments in the Python code (models,
  balance validators, pandas parsers) become function parameters.
-/

namespace ModelProcessor

/- Embedding of api/procesos_estructura/model_processor.py.
   A prediction row carries the predicted label and its confidence
   (the columns of the DataFrame built by _run_model_with_header_fallback). -/

structure PredRow where
  label : String
  conf : ℚ
deriving DecidableEq, Repr

/-- Mean of the confidence column, as in df["confidence"].mean(). -/
def meanConf (rows : List PredRow) : ℚ :=
  (rows.map PredRow.conf).sum / rows.length

/-- Test mean < _fallback_thr (0.7). pandas mean of an empty column is NaN and
NaN < 0.7 is False, so the empty case is guarded explicitly. -/
def meanBelowFallbackThr (rows : List PredRow) : Bool :=
  !rows.isEmpty && decide (meanConf rows < 7/10)

/-- Model-selection logic of DocumentPredict.predict_file (lines 249-276):
chosen_dfm starts as the PARENT-CHILD output; if its mean confidence is below
the fallback threshold and the HEADER directory is distinct, the HEADER model
is run and its output is adopted. The two models' outputs are parameters
(dfParent, dfHeader), abstracting _run_model_with_header_fallback on each
loaded model. -/
def predictFileChosen (parentDir headerDir : String)
    (dfParent dfHeader : List PredRow) : List PredRow × String :=
  let chosen := (dfParent, "PARENT-CHILD")
  if meanBelowFallbackThr dfParent && (headerDir != parentDir) then
    (dfHeader, "DATA-HEADER")
  else
    chosen

/-- Written from the spec sentence for comparison: run PARENT-CHILD first; if
its mean confidence is below 0.7 and a distinct HEADER directory exists, run
the HEADER model too and adopt whichever of the two has the higher mean
confidence, preferring PARENT-CHILD on ties. -/
def predictFileChosenSpec (parentDir headerDir : String)
    (dfParent dfHeader : List PredRow) : List PredRow × String :=
  if meanBelowFallbackThr dfParent && (headerDir != parentDir) then
    if meanConf dfHeader > meanConf dfParent then
      (dfHeader, "DATA-HEADER")
    else
      (dfParent, "PARENT-CHILD")
  else
    (dfParent, "PARENT-CHILD")

end ModelProcessor

namespace Serialization

/- Embedding of api/utils/serialization.py. Python values that can reach
convert_numpy_types are modelled by an inductive type distinguishing boxed
numpy scalars from native Python values; float payloads distinguish finite
values from NaN and the two infinities. -/

inductive PFloat where
  | val (q : ℚ)
  | nan
  | inf
  | ninf
deriving DecidableEq, Repr

/-- Whether math.isnan(x) or math.isinf(x) (resp. np.isnan/np.isinf) holds. -/
def PFloat.nonfinite : PFloat → Bool
  | .val _ => false
  | _ => true

inductive PyVal where
  | npInt (n : ℤ)
  | npFloat (x : PFloat)
  | npBool (b : Bool)
  | nparray (xs : List PyVal)
  | pyInt (n : ℤ)
  | pyFloat (x : PFloat)
  | pyBool (b : Bool)
  | pyStr (s : String)
  | pyNone
  | pyList (xs : List PyVal)
  | pyTuple (xs : List PyVal)
  | pyDict (kvs : List (String × PyVal))

mutual
/-- ndarray.tolist(): unbox numpy scalars to native values and turn (nested)
arrays into lists, with no NaN handling (NaN stays a native float NaN). -/
def tolist : PyVal → PyVal
  | .npInt n => .pyInt n
  | .npFloat x => .pyFloat x
  | .npBool b => .pyBool b
  | .nparray xs => .pyList (tolistList xs)
  | v => v

def tolistList : List PyVal → List PyVal
  | [] => []
  | x :: xs => tolist x :: tolistList xs
end

mutual
/-- convert_numpy_types (serialization.py lines 9-43), following the
isinstance dispatch order of the source. Note the np.ndarray branch returns
obj.tolist() without recursing into the result. -/
def convertNumpyTypes : PyVal → PyVal
  | .npInt n => .pyInt n
  | .npFloat x => if x.nonfinite then .pyNone else .pyFloat x
  | .npBool b => .pyBool b
  | .nparray xs => tolist (.nparray xs)
  | .pyDict kvs => .pyDict (convertKVs kvs)
  | .pyList xs => .pyList (convertList xs)
  | .pyTuple xs => .pyTuple (convertList xs)
  | .pyFloat x => if x.nonfinite then .pyNone else .pyFloat x
  | v => v

def convertList : List PyVal → List PyVal
  | [] => []
  | x :: xs => convertNumpyTypes x :: convertList xs

def convertKVs : List (String × PyVal) → List (String × PyVal)
  | [] => []
  | (k, v) :: kvs => (k, convertNumpyTypes v) :: convertKVs kvs
end

/-- safe_json_response just delegates to convert_numpy_types. -/
def safeJsonResponse (v : PyVal) : PyVal := convertNumpyTypes v

end Serialization

namespace AccountingDataProcessor

/- Embedding of api/procesos_mapeo/accounting_data_processor.py. Cells of the
DataFrame are either numeric (int/float, modelled exactly as rationals) or
strings; _clean_numeric_value_with_zero_fill returns Option so that the
implicit Python `return None` path (reached when the cleaned string is empty)
is captured as `none`. -/

inductive CellVal where
  | num (q : ℚ)
  | str (s : String)
deriving DecidableEq, Repr

/-- Python str.strip(): drop leading and trailing whitespace. -/
def stripChars (cs : List Char) : List Char :=
  ((cs.dropWhile Char.isWhitespace).reverse.dropWhile Char.isWhitespace).reverse

def pyStrip (s : String) : String := ⟨stripChars s.data⟩

/-- Python str.upper() over the character data. -/
def pyUpper (s : String) : String := ⟨s.data.map Char.toUpper⟩

/-- Search for the regex pattern of a parenthesised number: a left paren
followed, before the next right paren, by at least one digit and then that
right paren. re.search finds such a match iff some left paren is closed and
the enclosed segment contains a digit. -/
def hasParenDigit : List Char → Bool
  | [] => false
  | c :: rest =>
    if c = '(' then
      (if !((rest.dropWhile (fun d => d ≠ ')')).isEmpty)
          && (rest.takeWhile (fun d => d ≠ ')')).any Char.isDigit then
        true
      else hasParenDigit rest)
    else hasParenDigit rest

/-- Character class kept by re.sub of the complement of digits, dot, comma and
minus (ASCII digits; the source runs the same class over its inputs). -/
def keepNumChar (c : Char) : Bool :=
  c.isDigit || c = '.' || c = ',' || c = '-'

/-- Index of the last occurrence of a character, as str.rfind (callers only
use it when the character is present; absent gives 0 here). -/
def lastIndexOf (c : Char) (cs : List Char) : ℕ :=
  (((cs.enum.filter (fun p => p.2 = c)).map Prod.fst).getLast?).getD 0

/-- Split a character list on a separator, as str.split(sep); always returns
at least one (possibly empty) part. -/
def splitOnChar (c : Char) (cs : List Char) : List (List Char) :=
  match cs with
  | [] => [[]]
  | d :: rest =>
    let parts := splitOnChar c rest
    if d = c then [] :: parts
    else
      match parts with
      | [] => [[d]]
      | p :: ps => (d :: p) :: ps

/-- Comma/dot normalisation of the cleaned string
(_clean_numeric_value_with_zero_fill lines 343-371). -/
def commaDotNormalize (cs : List Char) : List Char :=
  if cs.contains ',' && cs.contains '.' then
    if lastIndexOf ',' cs < lastIndexOf '.' cs then
      cs.filter (fun c => c ≠ ',')
    else
      let lastComma := lastIndexOf ',' cs
      ((cs.take lastComma).filter (fun c => c ≠ ',' && c ≠ '.'))
        ++ '.' :: cs.drop (lastComma + 1)
  else if cs.contains ',' then
    let parts := splitOnChar ',' cs
    if (parts.getLastD []).length ≤ 2 then
      (parts.dropLast).flatten ++ '.' :: parts.getLastD []
    else
      cs.filter (fun c => c ≠ ',')
  else if cs.contains '.' then
    let dotParts := splitOnChar '.' cs
    let lastPart := dotParts.getLastD []
    if dotParts.length > 2 && lastPart.length ≤ 2
        && (!lastPart.isEmpty && lastPart.all Char.isDigit) then
      (dotParts.dropLast).flatten ++ '.' :: lastPart
    else if dotParts.length = 2 && lastPart.length > 2 then
      cs.filter (fun c => c ≠ '.')
    else cs
  else cs

/-- Leftmost start of a match of the first-number regex: a digit, or a minus
immediately followed by a digit (a bare minus cannot start a match because
the one-or-more digits group must then match). -/
def firstNumSuffix : List Char → Option (List Char)
  | [] => none
  | c :: rest =>
    if c.isDigit then some (c :: rest)
    else if c = '-' && (match rest with | d :: _ => d.isDigit | [] => false) then
      some (c :: rest)
    else firstNumSuffix rest

/-- Greedy extraction of digits, an optional dot, and further digits from the
start of the suffix: the text matched by the first-number regex. -/
def takeIntFrac (cs : List Char) : List Char :=
  let ds := cs.takeWhile Char.isDigit
  match cs.dropWhile Char.isDigit with
  | '.' :: rest => ds ++ '.' :: rest.takeWhile Char.isDigit
  | _ => ds

def takeNumMatch (cs : List Char) : List Char :=
  match cs with
  | '-' :: rest => '-' :: takeIntFrac rest
  | rest => takeIntFrac rest

def digitsToNat (cs : List Char) : ℕ :=
  cs.foldl (fun a c => a * 10 + (c.toNat - 48)) 0

/-- float() applied to the matched text: sign, integer digits, optional
fractional digits. -/
def parseFloatMatch (cs : List Char) : ℚ :=
  match cs with
  | '-' :: rest => -(parseUnsigned rest)
  | rest => parseUnsigned rest
where
  parseUnsigned (rest : List Char) : ℚ :=
    let intPart := rest.takeWhile Char.isDigit
    let fracPart := (rest.dropWhile Char.isDigit).drop 1
    if fracPart.isEmpty then (digitsToNat intPart : ℚ)
    else
      (digitsToNat intPart : ℚ)
        + (digitsToNat fracPart : ℚ) / ((10 : ℚ) ^ fracPart.length)

/-- Embedding of _clean_numeric_value_with_zero_fill (lines 324-384). Numeric
input is returned as is; a blank string yields 0.0; otherwise the string is
cleaned and the first number parsed, negated when a parenthesised digit
sequence was detected. When the cleaned string is empty the Python code skips
the `if cleaned:` block and falls off the end of the try block, returning
None: modelled as `none`. -/
def cleanNumericValueWithZeroFill : CellVal → Option ℚ
  | .num q => some q
  | .str s =>
    let sv := pyStrip s
    if sv = "" then some 0
    else
      let isParen := hasParenDigit sv.data
      let cleaned := sv.data.filter keepNumChar
      if cleaned.isEmpty then
        none
      else
        match firstNumSuffix (commaDotNormalize cleaned) with
        | some suffixCs =>
          let r := parseFloatMatch (takeNumMatch suffixCs)
          some (if isParen then -r else r)
        | none => some 0

/-- Missing-value float cell: `none` models NaN (and the object-dtype None,
which pandas arithmetic masks the same way). -/
def subF (x y : Option ℚ) : Option ℚ :=
  match x, y with
  | some a, some b => some (a - b)
  | _, _ => none

def absF (x : Option ℚ) : Option ℚ := x.map (fun q => |q|)

def negAbsF (x : Option ℚ) : Option ℚ := x.map (fun q => -|q|)

/-- pandas float equality: a NaN cell compares unequal to everything, itself
included. -/
def eqF (x y : Option ℚ) : Bool :=
  match x, y with
  | some a, some b => a == b
  | _, _ => false

/-- Result of process_numeric_fields_and_calculate_amounts in the scenario
with debit_amount and credit_amount columns and no amount column. -/
structure DCResult where
  debit : List (Option ℚ)
  credit : List (Option ℚ)
  amount : List (Option ℚ)
deriving DecidableEq, Repr

/-- Scenario with debit and credit columns and no amount column: Series.apply
stores the cleaned values (a None among floats becomes float64 NaN, an
all-None column keeps object dtype holding None), and the subtraction
df[debit] - df[credit] never raises — pandas na_arithmetic_op masks missing
operands — so the amount column is always created, NaN wherever an operand is
missing. -/
def processDebitCreditOnly (rows : List (CellVal × CellVal)) : DCResult :=
  let d := rows.map (fun r => cleanNumericValueWithZeroFill r.1)
  let c := rows.map (fun r => cleanNumericValueWithZeroFill r.2)
  { debit := d, credit := c, amount := List.zipWith subF d c }

def debitPatterns : List String := ["D", "DEBE", "DEBIT", "DR", "DB", "1", "S"]

def creditPatterns : List String := ["C", "H", "HABER", "CREDIT", "CR", "CD", "0", "-1", "N"]

def isDebitInd (s : String) : Bool := decide (s ∈ debitPatterns)

def isCreditInd (s : String) : Bool := decide (s ∈ creditPatterns)

/-- Row state while _calculate_debit_credit_from_amount_indicator runs: the
cleaned amount (none = missing), the normalised indicator, and the
debit/credit columns initialised to 0.0. -/
structure AIRow where
  amount : Option ℚ
  ind : String
  debit : Option ℚ
  credit : Option ℚ
deriving DecidableEq, Repr

/-- Whether the cleaned amount column keeps object dtype holding None: only
when the apply results are all None (on mixed results pandas converts the
column to float64, turning None into NaN). -/
def amountColObjectNone (rows : List (CellVal × String)) : Bool :=
  !rows.isEmpty
    && rows.all (fun r => (cleanNumericValueWithZeroFill r.1).isNone)

/-- Embedding of the amount+indicator scenario of
process_numeric_fields_and_calculate_amounts: the amount column is cleaned,
debit/credit columns are created at 0.0, the indicator is trimmed and
upper-cased, and the four .loc assignments of
_calculate_debit_credit_from_amount_indicator run in source order with
NaN-propagating abs/negation. Only in the all-None object-dtype corner does
.abs() meet a None and raise — when a debit- or credit-marked row selects
one — and then the outer except handler returns the DataFrame in its current
state (value-wise the initial one: the assignments before the raise write 0.0
over 0.0 or select no row), reported here by the Bool component being
false. -/
def processAmountIndicator (rows : List (CellVal × String)) : List AIRow × Bool :=
  let st0 : List AIRow := rows.map (fun r =>
    { amount := cleanNumericValueWithZeroFill r.1
      ind := pyUpper (pyStrip r.2)
      debit := some 0
      credit := some 0 })
  if amountColObjectNone rows
      && (rows.any (fun r => isDebitInd (pyUpper (pyStrip r.2)))
        || rows.any (fun r => isCreditInd (pyUpper (pyStrip r.2)))) then
    (st0, false)
  else
    let st1 := st0.map (fun r =>
      if isDebitInd r.ind then { r with debit := absF r.amount } else r)
    let st2 := st1.map (fun r =>
      if isDebitInd r.ind then { r with credit := some 0 } else r)
    let st3 := st2.map (fun r =>
      if isCreditInd r.ind then { r with debit := some 0 } else r)
    let st4 := st3.map (fun r =>
      if isCreditInd r.ind then { r with credit := absF r.amount } else r)
    let st5 := st4.map (fun r =>
      if isCreditInd r.ind then { r with amount := negAbsF r.amount } else r)
    let st6 := st5.map (fun r =>
      if isDebitInd r.ind then { r with amount := absF r.amount } else r)
    (st6, true)

end AccountingDataProcessor

namespace ModelProcessor

/-- C1 counterexample: with a distinct HEADER directory and a PARENT-CHILD
mean confidence of 0.6 (below 0.7), predict_file adopts the HEADER model's
predictions even though their mean confidence (0.5) is lower, so the chosen
predictions are not those of the higher-mean-confidence role as the claim
states. -/
theorem c1_model_selection_counterexample :
    predictFileChosen "models_parent_child" "models_header_data"
        [⟨"DATA", 3/5⟩] [⟨"DATA", 1/2⟩]
      = ([⟨"DATA", 1/2⟩], "DATA-HEADER")
    ∧ meanConf [PredRow.mk "DATA" (1/2)] < meanConf [PredRow.mk "DATA" (3/5)]
    ∧ ([PredRow.mk "DATA" (1/2)]) ≠ ([PredRow.mk "DATA" (3/5)]) := by
  refine ⟨?_, by norm_num [meanConf], by norm_num⟩
  norm_num [predictFileChosen, meanBelowFallbackThr, meanConf]
  decide

/-- C1 (amended): when the PARENT-CHILD mean confidence is below 0.7 and a
distinct HEADER-DATA model directory exists, predict_file adopts the
HEADER-DATA model's predictions unconditionally, without comparing mean
confidences; in every other case the PARENT-CHILD predictions are kept. -/
theorem c1_model_selection (pd hd : String) (dfP dfH : List PredRow) :
    (hd ≠ pd → meanBelowFallbackThr dfP = true →
      predictFileChosen pd hd dfP dfH = (dfH, "DATA-HEADER"))
    ∧ (hd = pd ∨ meanBelowFallbackThr dfP = false →
      predictFileChosen pd hd dfP dfH = (dfP, "PARENT-CHILD")) := by
  constructor
  · intro hne hm
    simp [predictFileChosen, hm, bne_iff_ne, hne]
  · intro h
    rcases h with h | h
    · simp [predictFileChosen, h]
    · simp [predictFileChosen, h]

/-- C1 witness: the amended theorem applied at concrete inputs. -/
theorem c1_model_selection_witness :
    predictFileChosen "models_parent" "models_header"
        [⟨"HEADER", 1/2⟩] [⟨"DATA", 9/10⟩] = ([⟨"DATA", 9/10⟩], "DATA-HEADER") :=
  (c1_model_selection "models_parent" "models_header"
      [⟨"HEADER", 1/2⟩] [⟨"DATA", 9/10⟩]).1 (by decide)
    (by norm_num [meanBelowFallbackThr, meanConf])

end ModelProcessor

namespace Serialization

/-- C8: failing-input evaluation. A numpy array holding a NaN is converted by
convert_numpy_types/safe_json_response to a Python list still holding a
native NaN (the ndarray branch calls tolist() without recursing), so not
every NaN is replaced by the absent-value sentinel, and a second application
changes the result (it maps the now-native NaN to None), so the function is
not a fixed point under a second application. -/
theorem c8_serialization_code_bug_eval :
    safeJsonResponse (.nparray [.npFloat .nan]) = .pyList [.pyFloat .nan]
    ∧ safeJsonResponse (safeJsonResponse (.nparray [.npFloat .nan]))
        = .pyList [.pyNone]
    ∧ PyVal.pyList [.pyFloat .nan] ≠ PyVal.pyList [.pyNone] := by
  refine ⟨rfl, rfl, ?_⟩
  intro h
  injection h with h1
  injection h1 with h2
  exact PyVal.noConfusion h2

end Serialization

namespace AccountingDataProcessor

/-- C2: failing-input evaluation. On the string "abc" no digit, dot, comma or
minus survives the character-class cleaning, the `if cleaned:` block is
skipped, and the function returns Python None instead of a float — although
its own annotation declares `-> float` and the blank/numeric cases do return
floats as the claim describes. -/
theorem c2_clean_numeric_code_bug_eval :
    cleanNumericValueWithZeroFill (.str "abc") = none
    ∧ cleanNumericValueWithZeroFill (.str "") = some 0
    ∧ cleanNumericValueWithZeroFill (.str "   ") = some 0
    ∧ cleanNumericValueWithZeroFill (.num 5) = some 5 :=
  ⟨rfl, rfl, rfl, rfl⟩

lemma mem_zip_map {α β : Type} (F : α → β) :
    ∀ (l : List α) (p : α × β), p ∈ l.zip (l.map F) → p.2 = F p.1 := by
  intro l
  induction l with
  | nil => intro p hp; simp at hp
  | cons x xs ih =>
    intro p hp
    simp only [List.map_cons, List.zip_cons_cons, List.mem_cons] at hp
    rcases hp with h | h
    · rw [h]
    · exact ih p h

lemma mem_zip_zipWith {α β γ : Type} (f : α → β → γ) :
    ∀ (l : List α) (m : List β) (p : (α × β) × γ),
      p ∈ (l.zip m).zip (List.zipWith f l m) → p.2 = f p.1.1 p.1.2 := by
  intro l
  induction l with
  | nil => intro m p hp; simp at hp
  | cons x xs ih =>
    intro m p hp
    cases m with
    | nil => simp at hp
    | cons y ys =>
      simp only [List.zip_cons_cons, List.zipWith_cons_cons, List.mem_cons] at hp
      rcases hp with h | h
      · rw [h]
      · exact ih ys p h

lemma debit_not_credit {s : String} (h : isDebitInd s = true) :
    isCreditInd s = false := by
  have hs : s ∈ debitPatterns := of_decide_eq_true h
  fin_cases hs <;> rfl

lemma credit_not_debit {s : String} (h : isCreditInd s = true) :
    isDebitInd s = false := by
  have hs : s ∈ creditPatterns := of_decide_eq_true h
  fin_cases hs <;> rfl

/-- Per-row outcome of the amount+indicator scenario outside the all-None
object-dtype corner. -/
def finalAIRow (r : CellVal × String) : AIRow :=
  let a := cleanNumericValueWithZeroFill r.1
  let ind := pyUpper (pyStrip r.2)
  if isDebitInd ind then ⟨absF a, ind, absF a, some 0⟩
  else if isCreditInd ind then ⟨negAbsF a, ind, some 0, absF a⟩
  else ⟨a, ind, some 0, some 0⟩

lemma processAmountIndicator_eq_of_not_object
    (rows : List (CellVal × String))
    (hcond : (amountColObjectNone rows
      && (rows.any (fun r => isDebitInd (pyUpper (pyStrip r.2)))
        || rows.any (fun r => isCreditInd (pyUpper (pyStrip r.2))))) = false) :
    processAmountIndicator rows = (rows.map finalAIRow, true) := by
  unfold processAmountIndicator
  rw [if_neg (by simp [hcond])]
  simp only [List.map_map]
  refine Prod.ext ?_ rfl
  show rows.map _ = rows.map finalAIRow
  apply List.map_congr_left
  intro r _
  cases hdeb : isDebitInd (pyUpper (pyStrip r.2)) with
  | false =>
    cases hcred : isCreditInd (pyUpper (pyStrip r.2)) with
    | false => simp [Function.comp, finalAIRow, hdeb, hcred]
    | true => simp [Function.comp, finalAIRow, hdeb, hcred]
  | true =>
    have hcred := debit_not_credit hdeb
    simp [Function.comp, finalAIRow, hdeb, hcred]

lemma amountColObjectNone_eq_false_of_all_some
    (rows : List (CellVal × String))
    (h : ∀ r ∈ rows, (cleanNumericValueWithZeroFill r.1).isSome) :
    amountColObjectNone rows = false := by
  cases rows with
  | nil => rfl
  | cons r rest =>
    have hr := h r (List.mem_cons_self _ _)
    simp only [amountColObjectNone, List.all_cons]
    cases hcase : cleanNumericValueWithZeroFill r.1 with
    | none =>
      rw [hcase] at hr
      exact Bool.noConfusion hr
    | some v => simp [hcase]

/-- C3 counterexample: on a table whose debit cell is the unparsable string
"abc" (with credit 5), the cleaner returns None, pandas stores a missing
value, the subtraction creates the amount column with NaN at that row, and
since NaN compares unequal to everything, the claimed per-row equality
amount == debit_amount − credit_amount is false on that row. -/
theorem c3_amount_derivation_counterexample :
    (processDebitCreditOnly [(.str "abc", .num 5)]).amount = [none]
    ∧ ¬ (∀ p ∈ (((processDebitCreditOnly [(.str "abc", .num 5)]).debit.zip
          ((processDebitCreditOnly [(.str "abc", .num 5)]).credit)).zip
          ((processDebitCreditOnly [(.str "abc", .num 5)]).amount)),
        eqF p.2 (subF p.1.1 p.1.2) = true) := by
  constructor
  · rfl
  · intro h
    have := h ((none, some 5), none) (by decide)
    exact absurd this (by decide)

/-- C3 (amended): the amount column is always created; provided every
relevant cell cleans to a float (which the counterexample input violates —
there the affected row holds NaN, which the == comparison rejects), the two
postconditions hold: with debit and credit columns and no amount column,
every row gets amount = debit − credit, and the pandas equality
amount == debit_amount − credit_amount is true on it; with amount and
indicator columns only, debit-marked rows end with
(debit, credit, amount) = (|a|, 0, |a|), credit-marked rows with
(0, |a|, −|a|), and unmarked rows keep zero debit and credit. -/
theorem c3_amount_derivation :
    (∀ rows : List (CellVal × CellVal),
      (∀ r ∈ rows, (cleanNumericValueWithZeroFill r.1).isSome
          ∧ (cleanNumericValueWithZeroFill r.2).isSome) →
      (processDebitCreditOnly rows).amount.length = rows.length
      ∧ ∀ p ∈ (((processDebitCreditOnly rows).debit.zip
            (processDebitCreditOnly rows).credit).zip
            (processDebitCreditOnly rows).amount),
          ∃ dv cv, p.1.1 = some dv ∧ p.1.2 = some cv ∧ p.2 = some (dv - cv)
            ∧ eqF p.2 (subF p.1.1 p.1.2) = true)
    ∧ (∀ rows : List (CellVal × String),
      (∀ r ∈ rows, (cleanNumericValueWithZeroFill r.1).isSome) →
      (processAmountIndicator rows).2 = true
        ∧ ∀ p ∈ rows.zip (processAmountIndicator rows).1,
          (isDebitInd (pyUpper (pyStrip p.1.2)) = true →
            p.2.debit = some |(cleanNumericValueWithZeroFill p.1.1).getD 0|
            ∧ p.2.credit = some 0
            ∧ p.2.amount = some |(cleanNumericValueWithZeroFill p.1.1).getD 0|)
          ∧ (isCreditInd (pyUpper (pyStrip p.1.2)) = true →
            p.2.debit = some 0
            ∧ p.2.credit = some |(cleanNumericValueWithZeroFill p.1.1).getD 0|
            ∧ p.2.amount = some (-|(cleanNumericValueWithZeroFill p.1.1).getD 0|))
          ∧ (isDebitInd (pyUpper (pyStrip p.1.2)) = false →
             isCreditInd (pyUpper (pyStrip p.1.2)) = false →
            p.2.debit = some 0 ∧ p.2.credit = some 0)) := by
  constructor
  · intro rows h
    constructor
    · simp [processDebitCreditOnly]
    · intro p hp
      have hsub : p.2 = subF p.1.1 p.1.2 := by
        obtain ⟨⟨pd, pc⟩, pa⟩ := p
        exact mem_zip_zipWith subF _ _ _ hp
      obtain ⟨⟨pd, pc⟩, pa⟩ := p
      have hmem1 : (pd, pc) ∈ (processDebitCreditOnly rows).debit.zip
          (processDebitCreditOnly rows).credit :=
        (List.of_mem_zip hp).1
      have hd : pd ∈ (processDebitCreditOnly rows).debit := (List.of_mem_zip hmem1).1
      have hc : pc ∈ (processDebitCreditOnly rows).credit := (List.of_mem_zip hmem1).2
      simp only [processDebitCreditOnly, List.mem_map] at hd hc
      obtain ⟨r1, hr1, hpd⟩ := hd
      obtain ⟨r2, hr2, hpc⟩ := hc
      obtain ⟨dv, hdv⟩ := Option.isSome_iff_exists.1 (hpd ▸ (h r1 hr1).1)
      obtain ⟨cv, hcv⟩ := Option.isSome_iff_exists.1 (hpc ▸ (h r2 hr2).2)
      refine ⟨dv, cv, hdv, hcv, ?_, ?_⟩
      · rw [hsub, hdv, hcv]
        rfl
      · rw [hsub, hdv, hcv]
        simp [eqF, subF]
  · intro rows h
    have hobj := amountColObjectNone_eq_false_of_all_some rows h
    have heq := processAmountIndicator_eq_of_not_object rows (by simp [hobj])
    rw [heq]
    refine ⟨rfl, ?_⟩
    intro p hp
    have hp2 : p.2 = finalAIRow p.1 := by
      obtain ⟨p1, p2⟩ := p
      exact mem_zip_map finalAIRow rows (p1, p2) hp
    obtain ⟨p1, p2⟩ := p
    have hp1 : p1 ∈ rows := (List.of_mem_zip hp).1
    obtain ⟨av, hav⟩ := Option.isSome_iff_exists.1 (h p1 hp1)
    rw [hp2]
    cases hdeb : isDebitInd (pyUpper (pyStrip p1.2)) with
    | false =>
      cases hcred : isCreditInd (pyUpper (pyStrip p1.2)) with
      | false => simp [finalAIRow, hdeb, hcred]
      | true => simp [finalAIRow, hdeb, hcred, hav, absF, negAbsF]
    | true =>
      have hcred := debit_not_credit hdeb
      simp [finalAIRow, hdeb, hcred, hav, absF]

/-- C3 witness: the amended theorem applied at concrete tables with parsable
cells. -/
theorem c3_amount_derivation_witness :
    (processDebitCreditOnly [(.num 7, .num 3)]).amount.length = 1
    ∧ (processAmountIndicator [(.num 5, "D")]).2 = true :=
  ⟨(c3_amount_derivation.1 [(.num 7, .num 3)] (by decide)).1,
   (c3_amount_derivation.2 [(.num 5, "D")] (by decide)).1⟩

end AccountingDataProcessor

namespace BalanceValidator

/- Embedding of api/procesos_mapeo/balance_validator.py. A DataFrame row
carries the journal_entry_id, debit_amount, credit_amount and amount values;
the table records which of the optional columns are present, driving the
validator's control flow. -/

structure BalRow where
  jid : String
  debit : ℚ
  credit : ℚ
  amount : ℚ
deriving DecidableEq, Repr

structure BalTable where
  rows : List BalRow
  hasDebit : Bool
  hasCredit : Bool
  hasJid : Bool
  hasAmount : Bool

/-- A row of the per-entry groupby result of _validate_entry_level_balance. -/
structure EntryCheck where
  jid : String
  debit : ℚ
  credit : ℚ
  balanceDifference : ℚ
  isBalanced : Bool
deriving DecidableEq, Repr

structure BalanceReport where
  totalDebitSum : ℚ
  totalCreditSum : ℚ
  totalBalanceDifference : ℚ
  isBalanced : Bool
  entryBalanceCheck : List EntryCheck
  unbalancedEntries : List EntryCheck
  entriesCount : ℕ
  balancedEntriesCount : ℕ
  hasRequiredFields : Bool
  toleranceUsed : ℚ
deriving Repr

/-- Distinct journal_entry_id keys in first-occurrence order. pandas groupby
sorts the keys, but every property proved below is membership-based and
independent of the order of the group rows. -/
def distinctKeys : List String → List String
  | [] => []
  | k :: ks => k :: (distinctKeys ks).filter (fun x => x ≠ k)

def sumDebitFor (rows : List BalRow) (k : String) : ℚ :=
  ((rows.filter (fun r => r.jid = k)).map BalRow.debit).sum

def sumCreditFor (rows : List BalRow) (k : String) : ℚ :=
  ((rows.filter (fun r => r.jid = k)).map BalRow.credit).sum

/-- groupby('journal_entry_id').agg(sum) followed by the per-group strict
tolerance comparison (_validate_entry_level_balance lines 193-199). -/
def groupedEntries (rows : List BalRow) (tol : ℚ) : List EntryCheck :=
  (distinctKeys (rows.map BalRow.jid)).map (fun k =>
    let d := sumDebitFor rows k
    let c := sumCreditFor rows k
    { jid := k, debit := d, credit := c, balanceDifference := d - c
      isBalanced := decide (|d - c| < tol) })

/-- _validate_total_balance (lines 177-189): strict comparison of the absolute
total difference against the tolerance. -/
def validateTotalBalance (rows : List BalRow) (tol : ℚ) : ℚ × ℚ × ℚ × Bool :=
  let td := (rows.map BalRow.debit).sum
  let tc := (rows.map BalRow.credit).sum
  (td, tc, td - tc, decide (|td - tc| < tol))

/-- _validate_entry_level_balance (lines 191-214): grouped rows, the
unbalanced subset, the group count and the balanced count. -/
def validateEntryLevelBalance (rows : List BalRow) (tol : ℚ) :
    List EntryCheck × List EntryCheck × ℕ × ℕ :=
  let g := groupedEntries rows tol
  (g, g.filter (fun e => !e.isBalanced), g.length,
    (g.filter (fun e => e.isBalanced)).length)

/-- perform_comprehensive_balance_validation (lines 20-61): the default report
is returned when debit/credit columns are missing; otherwise the total-level
validation always runs and the entry-level validation runs when a
journal_entry_id column is present. (The cross-validation against the amount
column populates a separate report key and is not modelled.) -/
def performComprehensiveBalanceValidation (t : BalTable) (tol : ℚ) :
    BalanceReport :=
  let base : BalanceReport := {
    totalDebitSum := 0, totalCreditSum := 0, totalBalanceDifference := 0
    isBalanced := false, entryBalanceCheck := [], unbalancedEntries := []
    entriesCount := 0, balancedEntriesCount := 0, hasRequiredFields := false
    toleranceUsed := tol }
  if t.hasDebit && t.hasCredit then
    let tv := validateTotalBalance t.rows tol
    let r1 := { base with hasRequiredFields := true
                          totalDebitSum := tv.1
                          totalCreditSum := tv.2.1
                          totalBalanceDifference := tv.2.2.1
                          isBalanced := tv.2.2.2 }
    if t.hasJid then
      let ev := validateEntryLevelBalance t.rows tol
      { r1 with entryBalanceCheck := ev.1
                unbalancedEntries := ev.2.1
                entriesCount := ev.2.2.1
                balancedEntriesCount := ev.2.2.2 }
    else r1
  else base

end BalanceValidator

namespace BalanceValidator

lemma mem_distinctKeys {x : String} : ∀ l : List String, x ∈ l → x ∈ distinctKeys l := by
  intro l
  induction l with
  | nil => simp
  | cons k ks ih =>
    intro hx
    rcases List.mem_cons.1 hx with rfl | hx
    · exact List.mem_cons_self _ _
    · by_cases hxk : x = k
      · subst hxk; exact List.mem_cons_self _ _
      · exact List.mem_cons_of_mem _ (List.mem_filter.2 ⟨ih hx, by simp [hxk]⟩)

/-- C4: for every table with debit and credit columns, the total-level report
is balanced exactly when the absolute total difference is strictly below the
tolerance; every reported journal-entry group is balanced exactly when the
absolute difference of its summed debit and credit is strictly below the
tolerance, and every journal_entry_id of the table is reported; and at the
default tolerance 0.01 a group differing by exactly 0.01 is reported
unbalanced while a group differing by 0.005 is reported balanced. -/
theorem c4_balance_tolerance_boundary :
    (∀ (t : BalTable) (tol : ℚ), t.hasDebit = true → t.hasCredit = true →
      ((performComprehensiveBalanceValidation t tol).isBalanced = true ↔
        |(t.rows.map BalRow.debit).sum - (t.rows.map BalRow.credit).sum| < tol)
      ∧ (∀ e ∈ (performComprehensiveBalanceValidation t tol).entryBalanceCheck,
          e.isBalanced = true ↔
            |sumDebitFor t.rows e.jid - sumCreditFor t.rows e.jid| < tol)
      ∧ (t.hasJid = true → ∀ k ∈ t.rows.map BalRow.jid,
          ∃ e ∈ (performComprehensiveBalanceValidation t tol).entryBalanceCheck,
            e.jid = k))
    ∧ ((performComprehensiveBalanceValidation
          ⟨[⟨"A", 1, 995/1000, 0⟩, ⟨"B", 1, 99/100, 0⟩], true, true, true, false⟩
          (1/100)).entryBalanceCheck.map
        (fun e => (e.jid, e.isBalanced)) = [("A", true), ("B", false)]) := by
  constructor
  · intro t tol hd hc
    have hif : (performComprehensiveBalanceValidation t tol) =
        (let tv := validateTotalBalance t.rows tol
         let r1 : BalanceReport := {
           totalDebitSum := tv.1, totalCreditSum := tv.2.1
           totalBalanceDifference := tv.2.2.1, isBalanced := tv.2.2.2
           entryBalanceCheck := [], unbalancedEntries := []
           entriesCount := 0, balancedEntriesCount := 0
           hasRequiredFields := true, toleranceUsed := tol }
         if t.hasJid then
           let ev := validateEntryLevelBalance t.rows tol
           { r1 with entryBalanceCheck := ev.1
                     unbalancedEntries := ev.2.1
                     entriesCount := ev.2.2.1
                     balancedEntriesCount := ev.2.2.2 }
         else r1) := by
      unfold performComprehensiveBalanceValidation
      rw [hd, hc]
      rfl
    refine ⟨?_, ?_, ?_⟩
    · rw [hif]
      cases hj : t.hasJid <;>
        simp [validateTotalBalance, validateEntryLevelBalance]
    · intro e he
      rw [hif] at he
      cases hj : t.hasJid <;> rw [hj] at he
      · simp at he
      · simp only [validateEntryLevelBalance, groupedEntries] at he
        obtain ⟨k, -, rfl⟩ := List.mem_map.1 he
        simp
    · intro hj k hk
      rw [hif]
      rw [hj]
      refine ⟨_, List.mem_map.2 ⟨k, mem_distinctKeys _ hk, rfl⟩, rfl⟩
  · simp only [performComprehensiveBalanceValidation, validateTotalBalance,
      validateEntryLevelBalance, groupedEntries, distinctKeys,
      sumDebitFor, sumCreditFor]
    simp [List.filter_cons, List.filter_nil]
    constructor
    · rw [abs_of_pos (by norm_num)]
      norm_num
    · rw [abs_of_pos (by norm_num)]
      norm_num

/-- C4 witness: the universal part applied to a one-row balanced table. -/
theorem c4_balance_tolerance_boundary_witness :
    (performComprehensiveBalanceValidation
        ⟨[⟨"A", 1, 1, 0⟩], true, true, false, false⟩ (1/100)).isBalanced = true := by
  have h := ((c4_balance_tolerance_boundary).1
      ⟨[⟨"A", 1, 1, 0⟩], true, true, false, false⟩ (1/100) rfl rfl).1
  exact h.mpr (by norm_num)

end BalanceValidator

namespace ModelProcessor

/- Embedding of _run_model_with_header_fallback (model_processor.py lines
168-227) at the level of a single prediction row: the encoder's class list,
the row of per-class probabilities, and the predicted class index. -/

/-- np.argsort(row_probas)[::-1]: the class indices sorted by descending
probability (numpy leaves tie order unspecified; insertion sort fixes one). -/
def argsortDesc (p : List ℚ) : List ℕ :=
  List.insertionSort (fun a b => p.getD b 0 ≤ p.getD a 0) (List.range p.length)

/-- Candidate test of the fallback loop: a non-HEADER class whose own
probability exceeds 0.1. -/
def fallbackPred (classes : List String) (p : List ℚ) (idx : ℕ) : Bool :=
  (classes.getD idx "" != "HEADER") && decide ((1 : ℚ)/10 < p.getD idx 0)

/-- The per-row label/confidence outcome of _run_model_with_header_fallback:
a HEADER prediction below the 0.7 threshold is replaced by the first
candidate of the descending probability order that is non-HEADER with
probability above 0.1; otherwise the original prediction is kept. -/
def headerFallbackRow (classes : List String) (p : List ℚ) (predIdx : ℕ) :
    String × ℚ :=
  let origLabel := classes.getD predIdx ""
  let origConf := p.getD predIdx 0
  if origLabel = "HEADER" ∧ origConf < 7/10 then
    match (argsortDesc p).find? (fallbackPred classes p) with
    | some idx => (classes.getD idx "", p.getD idx 0)
    | none => (origLabel, origConf)
  else (origLabel, origConf)

lemma find?_max_of_sorted {p : List ℚ} {pred : ℕ → Bool} :
    ∀ {l : List ℕ}, l.Pairwise (fun a b => p.getD b 0 ≤ p.getD a 0) →
      ∀ {i : ℕ}, l.find? pred = some i →
      ∀ j ∈ l, pred j = true → p.getD j 0 ≤ p.getD i 0 := by
  intro l
  induction l with
  | nil => intro _ i hf; simp at hf
  | cons x xs ih =>
    intro hs i hf j hj hpj
    cases hx : pred x with
    | true =>
      rw [List.find?_cons_of_pos _ hx] at hf
      cases hf
      rcases List.mem_cons.1 hj with rfl | hj
      · exact le_refl _
      · exact (List.pairwise_cons.1 hs).1 j hj
    | false =>
      rw [List.find?_cons_of_neg _ (by simp [hx])] at hf
      rcases List.mem_cons.1 hj with rfl | hj
      · rw [hx] at hpj; exact Bool.noConfusion hpj
      · exact ih (List.pairwise_cons.1 hs).2 hf j hj hpj

lemma argsortDesc_sorted (p : List ℚ) :
    (argsortDesc p).Pairwise (fun a b => p.getD b 0 ≤ p.getD a 0) := by
  haveI : IsTotal ℕ (fun a b => p.getD b 0 ≤ p.getD a 0) :=
    ⟨fun a b => le_total _ _⟩
  haveI : IsTrans ℕ (fun a b => p.getD b 0 ≤ p.getD a 0) :=
    ⟨fun a b c hab hbc => le_trans hbc hab⟩
  exact List.sorted_insertionSort _ _

lemma argsortDesc_perm (p : List ℚ) :
    List.Perm (argsortDesc p) (List.range p.length) :=
  List.perm_insertionSort _ _

/-- C9: a HEADER prediction with confidence below 0.7 is reassigned to the
highest-probability non-HEADER class whose own probability exceeds 0.1,
adopting that probability as confidence; when no non-HEADER class exceeds
0.1 the original prediction is kept; predictions that are not low-confidence
HEADER are left unchanged. -/
theorem c9_header_fallback (classes : List String) (p : List ℚ) (predIdx : ℕ) :
    (classes.getD predIdx "" = "HEADER" → p.getD predIdx 0 < 7/10 →
      ((∃ j, j < p.length ∧ classes.getD j "" ≠ "HEADER" ∧ (1:ℚ)/10 < p.getD j 0) →
        ∃ i, headerFallbackRow classes p predIdx = (classes.getD i "", p.getD i 0)
          ∧ i < p.length ∧ classes.getD i "" ≠ "HEADER" ∧ (1:ℚ)/10 < p.getD i 0
          ∧ ∀ j, j < p.length → classes.getD j "" ≠ "HEADER" →
              p.getD j 0 ≤ p.getD i 0)
      ∧ ((∀ j, j < p.length → classes.getD j "" = "HEADER" ∨ p.getD j 0 ≤ 1/10) →
        headerFallbackRow classes p predIdx
          = (classes.getD predIdx "", p.getD predIdx 0)))
    ∧ (¬(classes.getD predIdx "" = "HEADER" ∧ p.getD predIdx 0 < 7/10) →
      headerFallbackRow classes p predIdx
        = (classes.getD predIdx "", p.getD predIdx 0)) := by
  constructor
  · intro hlab hconf
    constructor
    · intro hex
      obtain ⟨j0, hj0len, hj0lab, hj0p⟩ := hex
      cases hf : (argsortDesc p).find? (fallbackPred classes p) with
      | none =>
        exfalso
        have hall := List.find?_eq_none.1 hf
        have hj0mem : j0 ∈ argsortDesc p :=
          ((argsortDesc_perm p).mem_iff).2 (List.mem_range.2 hj0len)
        refine hall j0 hj0mem ?_
        simp only [fallbackPred, Bool.and_eq_true, bne_iff_ne, ne_eq,
          decide_eq_true_eq]
        exact ⟨hj0lab, hj0p⟩
      | some i =>
        have hpi := List.find?_some hf
        have himem : i ∈ argsortDesc p := List.mem_of_find?_eq_some hf
        have hilen : i < p.length :=
          List.mem_range.1 (((argsortDesc_perm p).mem_iff).1 himem)
        have hpi2 : classes.getD i "" ≠ "HEADER" ∧ (1:ℚ)/10 < p.getD i 0 := by
          simp only [fallbackPred, Bool.and_eq_true, bne_iff_ne, ne_eq,
            decide_eq_true_eq] at hpi
          exact hpi
        refine ⟨i, ?_, hilen, hpi2.1, hpi2.2, ?_⟩
        · unfold headerFallbackRow
          rw [if_pos ⟨hlab, hconf⟩, hf]
        · intro j hjlen hjlab
          by_contra hlt
          push_neg at hlt
          have hjq : fallbackPred classes p j = true := by
            simp only [fallbackPred, Bool.and_eq_true, bne_iff_ne, ne_eq,
              decide_eq_true_eq]
            exact ⟨hjlab, lt_trans hpi2.2 hlt⟩
          have hjmem : j ∈ argsortDesc p :=
            ((argsortDesc_perm p).mem_iff).2 (List.mem_range.2 hjlen)
          have := find?_max_of_sorted (argsortDesc_sorted p) hf j hjmem hjq
          exact absurd this (not_le.2 hlt)
    · intro hnone
      unfold headerFallbackRow
      rw [if_pos ⟨hlab, hconf⟩]
      cases hf : (argsortDesc p).find? (fallbackPred classes p) with
      | none => rfl
      | some i =>
        exfalso
        have hpi := List.find?_some hf
        have himem : i ∈ argsortDesc p := List.mem_of_find?_eq_some hf
        have hilen : i < p.length :=
          List.mem_range.1 (((argsortDesc_perm p).mem_iff).1 himem)
        have hpi2 : classes.getD i "" ≠ "HEADER" ∧ (1:ℚ)/10 < p.getD i 0 := by
          simp only [fallbackPred, Bool.and_eq_true, bne_iff_ne, ne_eq,
            decide_eq_true_eq] at hpi
          exact hpi
        rcases hnone i hilen with h | h
        · exact hpi2.1 h
        · exact absurd hpi2.2 (not_lt.2 h)
  · intro hnot
    unfold headerFallbackRow
    rw [if_neg hnot]

/-- C9 witness: the running example of the spec — HEADER at probability 0.5
with a competing class at 0.2 is reassigned to that class at confidence 0.2. -/
theorem c9_header_fallback_witness :
    headerFallbackRow ["DATA", "HEADER"] [1/5, 1/2] 1 = ("DATA", 1/5) := by
  have h := ((c9_header_fallback ["DATA", "HEADER"] [1/5, 1/2] 1).1
      rfl (by norm_num)).1 ⟨0, by norm_num, by decide, by norm_num⟩
  obtain ⟨i, hres, hilen, hlab, hp, -⟩ := h
  have hi2 : i < 2 := by simpa using hilen
  interval_cases i
  · exact hres
  · exact absurd rfl hlab

end ModelProcessor

namespace TabularProcessor

/- Embedding of api/procesos_estructura/tabular_processor.py. The file is
modelled from the list of its stripped non-blank lines (the list produced by
the read loop of process_csv_tabular); pandas to_numeric/to_datetime, called
by clean_dataframe on keyword-named columns only, are library functions and
appear as parameters. -/

open AccountingDataProcessor (stripChars splitOnChar)

/-- Python strip of double quotes, as section_text.strip('"'). -/
def stripQuotes (cs : List Char) : List Char :=
  ((cs.dropWhile (fun c => c = '"')).reverse.dropWhile (fun c => c = '"')).reverse

/-- A regex word character, the \w class over the data seen by the parser. -/
def isWordChar (c : Char) : Bool := c.isAlphanum || c = '_'

/-- Character kept by re.sub of the complement of word chars, whitespace, dot
and minus. -/
def cleanColChar (c : Char) : Bool :=
  isWordChar c || c.isWhitespace || c = '.' || c = '-'

/-- re.sub of one-or-more whitespace to a single underscore, applied to a
stripped string (the flag carries whether the previous char was whitespace). -/
def collapseWsAux : Bool → List Char → List Char
  | _, [] => []
  | prevWs, c :: rest =>
    if c.isWhitespace then
      if prevWs then collapseWsAux true rest
      else '_' :: collapseWsAux true rest
    else c :: collapseWsAux false rest

/-- The two re.sub cleanups of extract_columns_from_section (lines 29-30). -/
def cleanColumnName (col : List Char) : List Char :=
  collapseWsAux false (stripChars (col.filter cleanColChar))

/-- Indexed walk over the pipe-separated tokens: a token is kept when its
strip is nonempty and not "." and its cleaned name is nonempty; the kept
names and their pipe positions are returned in order. -/
def extractColsAux : ℕ → List (List Char) → List String × List ℕ
  | _, [] => ([], [])
  | i, col :: rest =>
    if stripChars col ≠ [] ∧ stripChars col ≠ ['.'] then
      if cleanColumnName (stripChars col) ≠ [] then
        ((⟨cleanColumnName (stripChars col)⟩ : String)
            :: (extractColsAux (i + 1) rest).1,
          i :: (extractColsAux (i + 1) rest).2)
      else extractColsAux (i + 1) rest
    else extractColsAux (i + 1) rest

/-- extract_columns_from_section (lines 6-35). -/
def extractColumnsFromSection (sectionText : String) : List String × List ℕ :=
  if stripChars sectionText.data = [] then ([], [])
  else
    extractColsAux 0 (splitOnChar '|' (stripQuotes (stripChars sectionText.data)))

/-- extract_data_from_section (lines 37-62): read only the valid pipe
positions, blanking "." and out-of-range fields. -/
def extractDataFromSection (sectionText : String) (validIndices : List ℕ) :
    List String :=
  if stripChars sectionText.data = [] then
    List.replicate validIndices.length ""
  else
    let rawData := splitOnChar '|' (stripQuotes (stripChars sectionText.data))
    validIndices.map (fun idx =>
      if idx < rawData.length then
        let field := stripChars (rawData.getD idx [])
        if field = [] ∨ field = ['.'] then "" else (⟨field⟩ : String)
      else "")

/-- Header/data row construction of process_csv_tabular before clean_dataframe
(lines 131-226): split the first line at its first comma into one or two
header sections, then split every further line the same way and read the
valid positions of each section. An empty file raises, modelled as none. -/
def processCsvTabularRaw (lines : List String) :
    Option (List String × List (List String)) :=
  match lines with
  | [] => none
  | firstLine :: rest =>
    let fd := firstLine.data
    if fd.contains ',' then
      let s1 : String := ⟨stripChars (fd.takeWhile (fun c => c ≠ ','))⟩
      let s2 : String := ⟨stripChars ((fd.dropWhile (fun c => c ≠ ',')).drop 1)⟩
      let e1 := extractColumnsFromSection s1
      let e2 := extractColumnsFromSection s2
      some (e1.1 ++ e2.1, rest.map (fun line =>
        let ld := line.data
        if ld.contains ',' then
          extractDataFromSection ⟨stripChars (ld.takeWhile (fun c => c ≠ ','))⟩ e1.2
            ++ extractDataFromSection ⟨stripChars ((ld.dropWhile (fun c => c ≠ ',')).drop 1)⟩ e2.2
        else
          extractDataFromSection ⟨stripChars ld⟩ e1.2
            ++ extractDataFromSection "" e2.2))
    else
      let e1 := extractColumnsFromSection ⟨stripChars fd⟩
      some (e1.1, rest.map (fun line =>
        extractDataFromSection ⟨stripChars line.data⟩ e1.2))

/-- Cell states after clean_dataframe: original strings, pd.NA from the
empty-string replacement, numeric-column cells and date-column cells. -/
inductive TabCell where
  | s (v : String)
  | na
  | numv (v : Option ℚ)
  | datev (v : Option String)
deriving DecidableEq, Repr

def lowerStr (s : String) : String := ⟨s.data.map Char.toLower⟩

/-- Python substring containment, word in s. -/
def containsSeq (needle : List Char) : List Char → Bool
  | [] => needle.isEmpty
  | c :: t => needle.isPrefixOf (c :: t) || containsSeq needle t

def isNumericCol (name : String) : Bool :=
  ["debe", "haber", "moneda", "importe"].any
    (fun w => containsSeq w.data (lowerStr name).data)

def isDateCol (name : String) : Bool :=
  ["fecha", "registrado"].any (fun w => containsSeq w.data (lowerStr name).data)

/-- clean_numeric_field (lines 64-94) on a string cell: strip, detach a
leading minus, convert the European thousand/decimal format, reattach the
sign. -/
def cleanNumericFieldStr (v : String) : String :=
  let cleaned := stripChars v.data
  let isNeg := cleaned.headD ' ' = '-'
  let body := if isNeg then cleaned.drop 1 else cleaned
  let body2 :=
    if body.contains ',' && body.contains '.' then
      let intPart := (body.take (AccountingDataProcessor.lastIndexOf ',' body)).filter
        (fun c => c ≠ '.')
      let decPart := body.drop (AccountingDataProcessor.lastIndexOf ',' body + 1)
      intPart ++ '.' :: decPart
    else if body.contains ',' then
      body.map (fun c => if c = ',' then '.' else c)
    else body
  ⟨if isNeg then '-' :: body2 else body2⟩

/-- clean_dataframe (lines 96-114): empty strings become NA; columns whose
lowercase name contains debe/haber/moneda/importe go through
clean_numeric_field then pd.to_numeric(errors="coerce") (parameter toNum);
columns named with fecha/registrado go through
pd.to_datetime(errors="coerce", dayfirst=True) (parameter toDate). -/
def transformCell (toNum : String → Option ℚ) (toDate : String → Option String)
    (name : String) (cell : TabCell) : TabCell :=
  if isNumericCol name then
    match cell with
    | .s v => .numv (toNum (cleanNumericFieldStr v))
    | .na => .numv none
    | other => other
  else if isDateCol name then
    match cell with
    | .s v => .datev (toDate v)
    | .na => .datev none
    | other => other
  else cell

def cleanDataframe (toNum : String → Option ℚ) (toDate : String → Option String)
    (headers : List String) (rows : List (List String)) : List (List TabCell) :=
  rows.map (fun row =>
    (row.enum).map (fun p =>
      transformCell toNum toDate (headers.getD p.1 "")
        (if p.2 = "" then TabCell.na else TabCell.s p.2)))

/-- process_csv_tabular (lines 116-238) end to end. -/
def processCsvTabular (toNum : String → Option ℚ)
    (toDate : String → Option String) (lines : List String) :
    Option (List String × List (List TabCell)) :=
  (processCsvTabularRaw lines).map
    (fun hr => (hr.1, cleanDataframe toNum toDate hr.1 hr.2))

lemma extractColsAux_indices_lb :
    ∀ (raw : List (List Char)) (k : ℕ), ∀ x ∈ (extractColsAux k raw).2, k ≤ x := by
  intro raw
  induction raw with
  | nil => intro k x hx; simp [extractColsAux] at hx
  | cons col rest ih =>
    intro k x hx
    unfold extractColsAux at hx
    by_cases h1 : stripChars col ≠ [] ∧ stripChars col ≠ ['.']
    · rw [if_pos h1] at hx
      by_cases h2 : cleanColumnName (stripChars col) ≠ []
      · rw [if_pos h2] at hx
        rcases List.mem_cons.1 hx with rfl | hx
        · exact le_refl _
        · exact le_trans (Nat.le_succ _) (ih (k + 1) x hx)
      · rw [if_neg h2] at hx
        exact le_trans (Nat.le_succ _) (ih (k + 1) x hx)
    · rw [if_neg h1] at hx
      exact le_trans (Nat.le_succ _) (ih (k + 1) x hx)

lemma extractColsAux_not_mem_blank :
    ∀ (raw : List (List Char)) (k j : ℕ),
      (stripChars (raw.getD j []) = [] ∨ stripChars (raw.getD j []) = ['.']) →
      (k + j) ∉ (extractColsAux k raw).2 := by
  intro raw
  induction raw with
  | nil => intro k j _ hx; simp [extractColsAux] at hx
  | cons col rest ih =>
    intro k j hblank hx
    cases j with
    | zero =>
      simp only [List.getD_cons_zero] at hblank
      unfold extractColsAux at hx
      have h1 : ¬(stripChars col ≠ [] ∧ stripChars col ≠ ['.']) := by
        rcases hblank with h | h
        · intro hcon; exact hcon.1 h
        · intro hcon; exact hcon.2 h
      rw [if_neg h1] at hx
      have := extractColsAux_indices_lb rest (k + 1) _ hx
      omega
    | succ j' =>
      simp only [List.getD_cons_succ] at hblank
      unfold extractColsAux at hx
      have hnot := ih (k + 1) j' hblank
      have harith : k + (j' + 1) = k + 1 + j' := by omega
      by_cases h1 : stripChars col ≠ [] ∧ stripChars col ≠ ['.']
      · rw [if_pos h1] at hx
        by_cases h2 : cleanColumnName (stripChars col) ≠ []
        · rw [if_pos h2] at hx
          rcases List.mem_cons.1 hx with heq | hx
          · omega
          · rw [harith] at hx
            exact hnot hx
        · rw [if_neg h2] at hx
          rw [harith] at hx
          exact hnot hx
      · rw [if_neg h1] at hx
        rw [harith] at hx
        exact hnot hx

lemma extractColsAux_lengths :
    ∀ (raw : List (List Char)) (k : ℕ),
      (extractColsAux k raw).1.length = (extractColsAux k raw).2.length := by
  intro raw
  induction raw with
  | nil => intro k; rfl
  | cons col rest ih =>
    intro k
    unfold extractColsAux
    by_cases h1 : stripChars col ≠ [] ∧ stripChars col ≠ ['.']
    · rw [if_pos h1]
      by_cases h2 : cleanColumnName (stripChars col) ≠ []
      · rw [if_pos h2]
        simp [ih (k + 1)]
      · rw [if_neg h2]
        exact ih (k + 1)
    · rw [if_neg h1]
      exact ih (k + 1)

/-- C6: the two-section example "Name|Amount,Line|Detail" over data line
"Asiento|100,1|Foo" parses to the four combined columns with the single data
row, for any pandas numeric/date parsers (no column name matches the
conversion keywords); a header token that strips to the empty string or a
lone dot is never among the valid pipe positions of the section, the
extracted column names are in bijection with the valid positions, and every
data row reads exactly the valid positions (so the fields at an excluded
pipe position are dropped from every row). -/
theorem c6_tabular_sections :
    (∀ (toNum : String → Option ℚ) (toDate : String → Option String),
      processCsvTabular toNum toDate
          ["Name|Amount,Line|Detail", "Asiento|100,1|Foo"]
        = some (["Name", "Amount", "Line", "Detail"],
            [[.s "Asiento", .s "100", .s "1", .s "Foo"]]))
    ∧ (∀ (sectionText : String) (i : ℕ),
        (stripChars ((splitOnChar '|'
              (stripQuotes (stripChars sectionText.data))).getD i []) = []
          ∨ stripChars ((splitOnChar '|'
              (stripQuotes (stripChars sectionText.data))).getD i []) = ['.']) →
        i ∉ (extractColumnsFromSection sectionText).2)
    ∧ (∀ sectionText : String,
        (extractColumnsFromSection sectionText).1.length
          = (extractColumnsFromSection sectionText).2.length)
    ∧ (∀ (dataText : String) (validIndices : List ℕ),
        (extractDataFromSection dataText validIndices).length
          = validIndices.length) := by
  refine ⟨?_, ?_, ?_, ?_⟩
  · intro toNum toDate
    rfl
  · intro sectionText i h
    unfold extractColumnsFromSection
    by_cases hb : stripChars sectionText.data = []
    · rw [if_pos hb]
      simp
    · rw [if_neg hb]
      have := extractColsAux_not_mem_blank
        (splitOnChar '|' (stripQuotes (stripChars sectionText.data))) 0 i h
      simpa using this
  · intro sectionText
    unfold extractColumnsFromSection
    by_cases hb : stripChars sectionText.data = []
    · rw [if_pos hb]
      rfl
    · rw [if_neg hb]
      exact extractColsAux_lengths _ 0
  · intro dataText validIndices
    unfold extractDataFromSection
    by_cases hb : stripChars dataText.data = []
    · rw [if_pos hb]
      simp
    · rw [if_neg hb]
      simp

/-- C6 witness: the exclusion part applied to a section whose middle token is
a lone dot. -/
theorem c6_tabular_sections_witness :
    (1 : ℕ) ∉ (extractColumnsFromSection "Name|.|Amount").2 :=
  c6_tabular_sections.2.1 "Name|.|Amount" 1 (Or.inr (by decide))

end TabularProcessor

namespace FieldMapper

/- Embedding of api/procesos_mapeo/field_mapper.py (lines 934-1078). The
per-column classifier find_field_mapping (a method using the mapper's
configuration and the column's sample data), the balance-score computation of
_calculate_balance_score_for_column (which consults the DataFrame and the
balance validator argument), and the count of high-confidence amount fields
of _check_mapped_amount_fields (session state) are parameters; dictionaries
are association lists with insert-or-replace semantics. -/

structure Mapping where
  fieldType : String
  confidence : ℚ
  resolutionType : String
deriving DecidableEq, Repr

def dictInsert {α : Type} (k : String) (v : α) :
    List (String × α) → List (String × α)
  | [] => [(k, v)]
  | (k2, v2) :: rest =>
    if k2 = k then (k, v) :: rest else (k2, v2) :: dictInsert k v rest

def dictContains {α : Type} (k : String) (d : List (String × α)) : Bool :=
  d.any (fun p => p.1 = k)

def amountKeywords : List String :=
  ["amount", "importe", "saldo", "debe", "haber", "debit", "credit"]

def hasAmountKeyword (col : String) : Bool :=
  amountKeywords.any
    (fun w => TabularProcessor.containsSeq w.data (TabularProcessor.lowerStr col).data)

def hasLocalKeyword (col : String) : Bool :=
  ["local", "loc.", "ml", "lm"].any
    (fun w => TabularProcessor.containsSeq w.data (TabularProcessor.lowerStr col).data)

/-- The two passes of map_all_columns_with_conflict_resolution (lines
938-967): amount-keyword columns first, then the remaining columns, skipping
columns already mapped. -/
def buildInitialMappings (findFieldMapping : String → Option (String × ℚ))
    (columns : List String) : List (String × String × ℚ) :=
  let pass1 := (columns.filter hasAmountKeyword).foldl
    (fun acc c =>
      match findFieldMapping c with
      | some ftc => dictInsert c ftc acc
      | none => acc) []
  columns.foldl
    (fun acc c =>
      if dictContains c acc then acc
      else
        match findFieldMapping c with
        | some ftc => dictInsert c ftc acc
        | none => acc) pass1

/-- field_type_groups of _resolve_global_field_conflicts (lines 977-982):
group the candidate (column, confidence) pairs by field type, keeping the
first-seen order of field types (Python dict insertion order). -/
def addToGroups (ft : String) (cand : String × ℚ) :
    List (String × List (String × ℚ)) → List (String × List (String × ℚ))
  | [] => [(ft, [cand])]
  | (g, cs) :: rest =>
    if g = ft then (g, cs ++ [cand]) :: rest
    else (g, cs) :: addToGroups ft cand rest

def fieldTypeGroups (ms : List (String × String × ℚ)) :
    List (String × List (String × ℚ)) :=
  ms.foldl (fun gs m => addToGroups m.2.1 (m.1, m.2.2) gs) []

/-- Python max / stable descending sort head: the first element attaining the
maximal key (replacement only on strictly greater key). -/
def firstMaxAux {α : Type} (f : α → ℚ) (best : α) : List α → α
  | [] => best
  | x :: xs => firstMaxAux f (if f x > f best then x else best) xs

/-- _resolve_field_type_conflict (lines 1010-1025) together with
_resolve_journal_entry_id_with_balance (lines 1027-1048): a
journal_entry_id conflict with a balance validator and at least one
high-confidence amount field is decided by the best balance score; an amount
conflict is first offered to a local-currency-named candidate; otherwise the
highest-confidence candidate wins. The empty-candidate fallbacks are
unreachable (groups are built nonempty). -/
def resolveFieldTypeConflict (balanceScore : Option (String → ℚ))
    (amountFieldsMapped : ℕ) (ft : String) (cands : List (String × ℚ)) :
    String × ℚ × String :=
  if ft = "journal_entry_id" ∧ balanceScore.isSome then
    if amountFieldsMapped < 1 then
      match cands with
      | [] => ("", 0, "highest_confidence")
      | c :: cs =>
        ((firstMaxAux (fun p => p.2) c cs).1,
          (firstMaxAux (fun p => p.2) c cs).2, "highest_confidence")
    else
      match cands with
      | [] => ("", 0, "balance_validation_winner")
      | c :: cs =>
        ((firstMaxAux (fun p => (balanceScore.getD (fun _ => 0)) p.1) c cs).1,
          (firstMaxAux (fun p => (balanceScore.getD (fun _ => 0)) p.1) c cs).2,
          "balance_validation_winner")
  else
    match cands.find? (fun p => (ft = "amount" : Bool) && hasLocalKeyword p.1) with
    | some p => (p.1, p.2, "amount_local_priority")
    | none =>
      match cands with
      | [] => ("", 0, "highest_confidence")
      | c :: cs =>
        ((firstMaxAux (fun p => p.2) c cs).1,
          (firstMaxAux (fun p => p.2) c cs).2, "highest_confidence")

/-- One step of the conflict-resolution loop of
_resolve_global_field_conflicts: a single-candidate group is kept with
resolution no_conflict, a conflicting group is decided by
_resolve_field_type_conflict; either way the final dict gains one entry whose
field type is the group key. -/
def resolveStep (balanceScore : Option (String → ℚ)) (amountFieldsMapped : ℕ)
    (fm : List (String × Mapping)) (g : String × List (String × ℚ)) :
    List (String × Mapping) :=
  match g.2 with
  | [c] => dictInsert c.1 ⟨g.1, c.2, "no_conflict"⟩ fm
  | _ =>
    dictInsert (resolveFieldTypeConflict balanceScore amountFieldsMapped g.1 g.2).1
      ⟨g.1, (resolveFieldTypeConflict balanceScore amountFieldsMapped g.1 g.2).2.1,
        (resolveFieldTypeConflict balanceScore amountFieldsMapped g.1 g.2).2.2⟩ fm

/-- _resolve_global_field_conflicts (lines 973-1008): one final entry per
field-type group, keyed by the winning column. -/
def resolveGlobalFieldConflicts (balanceScore : Option (String → ℚ))
    (amountFieldsMapped : ℕ) (mappings : List (String × String × ℚ)) :
    List (String × Mapping) :=
  (fieldTypeGroups mappings).foldl (resolveStep balanceScore amountFieldsMapped) []

def mapAllColumnsWithConflictResolution
    (findFieldMapping : String → Option (String × ℚ))
    (balanceScore : Option (String → ℚ)) (amountFieldsMapped : ℕ)
    (columns : List String) : List (String × Mapping) :=
  resolveGlobalFieldConflicts balanceScore amountFieldsMapped
    (buildInitialMappings findFieldMapping columns)

def typesOf (fm : List (String × Mapping)) : List String :=
  fm.map (fun e => e.2.fieldType)

lemma typesOf_dictInsert_subset (k : String) (v : Mapping) :
    ∀ (fm : List (String × Mapping)) (t : String),
      t ∈ typesOf (dictInsert k v fm) → t = v.fieldType ∨ t ∈ typesOf fm := by
  intro fm
  induction fm with
  | nil => intro t ht; simpa [dictInsert, typesOf] using ht
  | cons e rest ih =>
    intro t ht
    unfold dictInsert at ht
    by_cases hk : e.1 = k
    · rw [if_pos hk] at ht
      rcases List.mem_cons.1 ht with rfl | ht
      · exact Or.inl rfl
      · exact Or.inr (List.mem_cons_of_mem _ ht)
    · rw [if_neg hk] at ht
      rcases List.mem_cons.1 ht with rfl | ht
      · exact Or.inr (List.mem_cons_self _ _)
      · rcases ih t ht with h | h
        · exact Or.inl h
        · exact Or.inr (List.mem_cons_of_mem _ h)

lemma typesOf_dictInsert_nodup (k : String) (v : Mapping) :
    ∀ (fm : List (String × Mapping)), (typesOf fm).Nodup →
      v.fieldType ∉ typesOf fm → (typesOf (dictInsert k v fm)).Nodup := by
  intro fm
  induction fm with
  | nil => intro _ _; simp [dictInsert, typesOf]
  | cons e rest ih =>
    intro hnd hv
    unfold dictInsert
    simp only [typesOf, List.map_cons, List.nodup_cons, List.mem_cons] at hnd hv ⊢
    by_cases hk : e.1 = k
    · rw [if_pos hk]
      simp only [List.map_cons, List.nodup_cons]
      constructor
      · intro hmem
        exact hv (Or.inr hmem)
      · exact hnd.2
    · rw [if_neg hk]
      simp only [List.map_cons, List.nodup_cons]
      constructor
      · intro hmem
        rcases typesOf_dictInsert_subset k v rest _ hmem with h | h
        · exact hv (Or.inl h.symm)
        · exact hnd.1 (by simpa [typesOf] using h)
      · exact ih hnd.2 (fun hmem => hv (Or.inr (by simpa [typesOf] using hmem)))

end FieldMapper

namespace FieldMapper

lemma keys_addToGroups (ft : String) (cand : String × ℚ) :
    ∀ gs : List (String × List (String × ℚ)),
      (addToGroups ft cand gs).map Prod.fst
        = if ft ∈ gs.map Prod.fst then gs.map Prod.fst
          else gs.map Prod.fst ++ [ft] := by
  intro gs
  induction gs with
  | nil => simp [addToGroups]
  | cons g rest ih =>
    unfold addToGroups
    by_cases hgft : g.1 = ft
    · rw [if_pos hgft]
      simp [hgft]
    · rw [if_neg hgft]
      simp only [List.map_cons, ih, List.mem_cons]
      by_cases hmem : ft ∈ rest.map Prod.fst
      · rw [if_pos hmem, if_pos (Or.inr hmem)]
      · rw [if_neg hmem, if_neg (by
          intro hor
          rcases hor with h | h
          · exact hgft h.symm
          · exact hmem h)]
        simp

lemma keys_addToGroups_nodup (ft : String) (cand : String × ℚ)
    (gs : List (String × List (String × ℚ)))
    (h : (gs.map Prod.fst).Nodup) :
    ((addToGroups ft cand gs).map Prod.fst).Nodup := by
  rw [keys_addToGroups]
  by_cases hmem : ft ∈ gs.map Prod.fst
  · rw [if_pos hmem]; exact h
  · rw [if_neg hmem]
    simp [List.nodup_append, h, hmem]

lemma fieldTypeGroups_keys_nodup (ms : List (String × String × ℚ)) :
    ((fieldTypeGroups ms).map Prod.fst).Nodup := by
  have hgen : ∀ (l : List (String × String × ℚ))
      (gs : List (String × List (String × ℚ))), (gs.map Prod.fst).Nodup →
      ((l.foldl (fun gs m => addToGroups m.2.1 (m.1, m.2.2) gs) gs).map
        Prod.fst).Nodup := by
    intro l
    induction l with
    | nil => intro gs h; simpa using h
    | cons m rest ih =>
      intro gs h
      rw [List.foldl_cons]
      exact ih _ (keys_addToGroups_nodup _ _ _ h)
  exact hgen ms [] (by simp)

lemma resolveStep_eq (bs : Option (String → ℚ)) (amf : ℕ)
    (fm : List (String × Mapping)) (g : String × List (String × ℚ)) :
    ∃ k v, resolveStep bs amf fm g = dictInsert k v fm ∧ v.fieldType = g.1 := by
  unfold resolveStep
  split
  · exact ⟨_, _, rfl, rfl⟩
  · exact ⟨_, _, rfl, rfl⟩

lemma resolve_foldl_types_nodup (bs : Option (String → ℚ)) (amf : ℕ) :
    ∀ (groups : List (String × List (String × ℚ)))
      (fm : List (String × Mapping)),
      (groups.map Prod.fst).Nodup → (typesOf fm).Nodup →
      (∀ g ∈ groups, g.1 ∉ typesOf fm) →
      (typesOf (groups.foldl (resolveStep bs amf) fm)).Nodup := by
  intro groups
  induction groups with
  | nil => intro fm _ h _; simpa using h
  | cons g rest ih =>
    intro fm hkeys hfm hdisj
    rw [List.foldl_cons]
    obtain ⟨k, v, heq, hft⟩ := resolveStep_eq bs amf fm g
    rw [heq]
    have hkeys2 : (g.1 :: rest.map Prod.fst).Nodup := by simpa using hkeys
    apply ih
    · exact (List.nodup_cons.1 hkeys2).2
    · apply typesOf_dictInsert_nodup _ _ _ hfm
      rw [hft]
      exact hdisj g (List.mem_cons_self _ _)
    · intro g2 hg2 hmem
      rcases typesOf_dictInsert_subset k v fm _ hmem with h | h
      · rw [hft] at h
        exact (List.nodup_cons.1 hkeys2).1
          (h ▸ List.mem_map_of_mem Prod.fst hg2)
      · exact hdisj g2 (List.mem_cons_of_mem _ hg2) h

/-- C5: for every per-column classifier, balance validator, amount-field
session state and batch of columns, the final mapping returned by
map_all_columns_with_conflict_resolution is injective on field type: no two
distinct columns of the result carry the same field_type. -/
theorem c5_unique_mapping (findFieldMapping : String → Option (String × ℚ))
    (balanceScore : Option (String → ℚ)) (amountFieldsMapped : ℕ)
    (columns : List String) :
    ∀ e1 ∈ mapAllColumnsWithConflictResolution findFieldMapping balanceScore
        amountFieldsMapped columns,
    ∀ e2 ∈ mapAllColumnsWithConflictResolution findFieldMapping balanceScore
        amountFieldsMapped columns,
      e1.1 ≠ e2.1 → e1.2.fieldType ≠ e2.2.fieldType := by
  intro e1 h1 e2 h2 hne heq
  have hnd : (typesOf (mapAllColumnsWithConflictResolution findFieldMapping
      balanceScore amountFieldsMapped columns)).Nodup := by
    unfold mapAllColumnsWithConflictResolution resolveGlobalFieldConflicts
    apply resolve_foldl_types_nodup
    · exact fieldTypeGroups_keys_nodup _
    · simp [typesOf]
    · intro g _ hmem
      simp [typesOf] at hmem
  have heq2 : e1 = e2 :=
    List.inj_on_of_nodup_map (by simpa [typesOf] using hnd) h1 h2 heq
  exact hne (congrArg Prod.fst heq2)

/-- C5 witness: the invariant applied to a concrete two-column run that maps
both columns. -/
theorem c5_unique_mapping_witness :
    ("debit_amount" : String) ≠ "credit_amount" := by
  have hmap := c5_unique_mapping
    (fun c => if c = "Debe" then some ("debit_amount", 1)
      else some ("credit_amount", 1))
    none 0 ["Debe", "Haber"]
  exact hmap ("Debe", ⟨"debit_amount", 1, "no_conflict"⟩) (by decide)
    ("Haber", ⟨"credit_amount", 1, "no_conflict"⟩) (by decide) (by decide)

end FieldMapper

namespace ManualMappingService

/- Embedding of api/services/manual_mapping_service.py,
_process_manual_mappings_local (lines 132-188). A decision dict is an
association list from column name to the decision record; the loop state
tracks current_decisions, used_fields, applied_mappings and
validation_errors. The updated_results['user_decisions'] assignment of the
source happens only after the validation_errors check, so on the error path
the original decision set is never touched; the embedding returns Except
accordingly. -/

structure Decision where
  fieldType : String
  confidence : ℚ
  decisionType : String
  resolutionType : String
deriving DecidableEq, Repr

structure ManualMapping where
  columnName : String
  selectedField : String
  confidence : ℚ
deriving DecidableEq, Repr

def violationMsg (m : ManualMapping) : String :=
  "Field \x27" ++ m.selectedField ++ "\x27 is already mapped to another column"

structure LoopState where
  decisions : List (String × Decision)
  usedFields : List String
  applied : List (String × String)
  errors : List String
deriving Repr

/-- The for-loop of _process_manual_mappings_local (lines 145-166): a mapping
whose selected field is already used is recorded as a violation and skipped;
otherwise the decision dict, the used-field set and the applied list grow. -/
def processLoop : LoopState → List ManualMapping → LoopState
  | st, [] => st
  | st, m :: ms =>
    if m.selectedField ∈ st.usedFields then
      processLoop { st with errors := st.errors ++ [violationMsg m] } ms
    else
      processLoop { st with
        decisions := FieldMapper.dictInsert m.columnName
          ⟨m.selectedField, m.confidence, "manual_mapping", "manual_selection"⟩
          st.decisions
        usedFields := st.usedFields ++ [m.selectedField]
        applied := st.applied ++ [(m.columnName, m.selectedField)] } ms

/-- _process_manual_mappings_local: collect all violations, then fail the
whole request with the combined error if any exist, else commit the updated
decision dict and the applied mappings. -/
def processManualMappingsLocal (original : List (String × Decision))
    (ms : List ManualMapping) :
    Except String (List (String × Decision) × List (String × String)) :=
  let st := processLoop
    ⟨original, original.map (fun d => d.2.fieldType), [], []⟩ ms
  if st.errors ≠ [] then
    .error ("Validation errors: " ++ String.intercalate "; " st.errors)
  else
    .ok (st.decisions, st.applied)

/-- Claim-side walk: each submitted mapping paired with whether its target
field type was already claimed, by an existing decision (the initial
accumulator) or by any earlier mapping of the same submission. -/
def claimedBefore (acc : List String) : List ManualMapping →
    List (ManualMapping × Bool)
  | [] => []
  | m :: ms =>
    (m, decide (m.selectedField ∈ acc))
      :: claimedBefore (acc ++ [m.selectedField]) ms

lemma processLoop_errors :
    ∀ (ms : List ManualMapping) (st : LoopState) (acc : List String),
      (∀ x, x ∈ st.usedFields ↔ x ∈ acc) →
      (processLoop st ms).errors
        = st.errors ++ ((claimedBefore acc ms).filter (fun p => p.2)).map
            (fun p => violationMsg p.1) := by
  intro ms
  induction ms with
  | nil => intro st acc _; simp [processLoop, claimedBefore]
  | cons m rest ih =>
    intro st acc hiff
    unfold processLoop claimedBefore
    by_cases hm : m.selectedField ∈ st.usedFields
    · rw [if_pos hm]
      have hacc : m.selectedField ∈ acc := (hiff _).1 hm
      have hiff2 : ∀ x, x ∈ st.usedFields ↔ x ∈ acc ++ [m.selectedField] := by
        intro x
        rw [hiff x]
        simp only [List.mem_append, List.mem_singleton]
        constructor
        · exact Or.inl
        · intro h
          rcases h with h | rfl
          · exact h
          · exact hacc
      rw [ih { st with errors := st.errors ++ [violationMsg m] }
        (acc ++ [m.selectedField]) (fun x => hiff2 x)]
      simp [hacc, List.filter_cons]
    · rw [if_neg hm]
      have hacc : m.selectedField ∉ acc := fun h => hm ((hiff _).2 h)
      have hiff2 : ∀ x, x ∈ st.usedFields ++ [m.selectedField] ↔
          x ∈ acc ++ [m.selectedField] := by
        intro x
        simp only [List.mem_append, List.mem_singleton, hiff x]
      rw [ih { st with
          decisions := FieldMapper.dictInsert m.columnName
            ⟨m.selectedField, m.confidence, "manual_mapping", "manual_selection"⟩
            st.decisions
          usedFields := st.usedFields ++ [m.selectedField]
          applied := st.applied ++ [(m.columnName, m.selectedField)] }
        (acc ++ [m.selectedField]) (fun x => hiff2 x)]
      simp [hacc, List.filter_cons]

lemma claimedBefore_flag_iff :
    ∀ (ms : List ManualMapping) (acc : List String) (i : ℕ), i < ms.length →
      (((claimedBefore acc ms).getD i (⟨"", "", 0⟩, false)).2 = true ↔
        ((ms.getD i ⟨"", "", 0⟩).selectedField ∈ acc
          ∨ ∃ j < i, (ms.getD j ⟨"", "", 0⟩).selectedField
              = (ms.getD i ⟨"", "", 0⟩).selectedField)) := by
  intro ms
  induction ms with
  | nil => intro acc i hi; simp at hi
  | cons m rest ih =>
    intro acc i hi
    cases i with
    | zero =>
      simp [claimedBefore]
    | succ i' =>
      have hi' : i' < rest.length := by simpa using hi
      have hIH := ih (acc ++ [m.selectedField]) i' hi'
      simp only [claimedBefore, List.getD_cons_succ]
      rw [hIH]
      constructor
      · intro h
        rcases h with h | ⟨j, hj, hjeq⟩
        · rcases List.mem_append.1 h with h | h
          · exact Or.inl h
          · refine Or.inr ⟨0, Nat.succ_pos _, ?_⟩
            simpa using (List.mem_singleton.1 h).symm
        · exact Or.inr ⟨j + 1, by omega, by simpa using hjeq⟩
      · intro h
        rcases h with h | ⟨j, hj, hjeq⟩
        · exact Or.inl (List.mem_append.2 (Or.inl h))
        · cases j with
          | zero =>
            refine Or.inl (List.mem_append.2 (Or.inr ?_))
            simpa using hjeq.symm
          | succ j' =>
            exact Or.inr ⟨j', by omega, by simpa using hjeq⟩

/-- C7: for every original decision set and submitted batch, the loop's
collected validation errors list exactly the submitted mappings whose target
field type was already claimed (by an existing decision or an earlier
mapping of the same submission, as the index characterisation states); when
any such violation exists the whole request fails with the combined error
and no updated decision set is produced; when none exists the request
commits. -/
theorem c7_manual_mapping_atomicity (original : List (String × Decision))
    (ms : List ManualMapping) :
    ((processLoop ⟨original, original.map (fun d => d.2.fieldType), [], []⟩
        ms).errors
      = ((claimedBefore (original.map (fun d => d.2.fieldType)) ms).filter
          (fun p => p.2)).map (fun p => violationMsg p.1))
    ∧ ((∃ p ∈ claimedBefore (original.map (fun d => d.2.fieldType)) ms,
          p.2 = true) →
        processManualMappingsLocal original ms
          = .error ("Validation errors: " ++ String.intercalate "; "
              (((claimedBefore (original.map (fun d => d.2.fieldType))
                  ms).filter (fun p => p.2)).map (fun p => violationMsg p.1))))
    ∧ ((∀ p ∈ claimedBefore (original.map (fun d => d.2.fieldType)) ms,
          p.2 = false) →
        ∃ newDecs applied,
          processManualMappingsLocal original ms = .ok (newDecs, applied))
    ∧ (∀ i, i < ms.length →
        (((claimedBefore (original.map (fun d => d.2.fieldType)) ms).getD i
            (⟨"", "", 0⟩, false)).2 = true ↔
          ((ms.getD i ⟨"", "", 0⟩).selectedField
              ∈ original.map (fun d => d.2.fieldType)
            ∨ ∃ j < i, (ms.getD j ⟨"", "", 0⟩).selectedField
                = (ms.getD i ⟨"", "", 0⟩).selectedField))) := by
  have h1 := processLoop_errors ms
    ⟨original, original.map (fun d => d.2.fieldType), [], []⟩
    (original.map (fun d => d.2.fieldType)) (fun x => Iff.rfl)
  simp only [List.nil_append] at h1
  refine ⟨h1, ?_, ?_, ?_⟩
  · intro hex
    have hne : (processLoop
        ⟨original, original.map (fun d => d.2.fieldType), [], []⟩
        ms).errors ≠ [] := by
      rw [h1]
      intro hnil
      obtain ⟨p, hp, hp2⟩ := hex
      have hfil := List.filter_eq_nil_iff.1 (List.map_eq_nil_iff.1 hnil)
      exact hfil p hp hp2
    simp only [processManualMappingsLocal]
    rw [if_pos hne, h1]
  · intro hall
    have hz : (processLoop
        ⟨original, original.map (fun d => d.2.fieldType), [], []⟩
        ms).errors = [] := by
      rw [h1]
      rw [List.filter_eq_nil_iff.2 (fun p hp => by simp [hall p hp])]
      rfl
    simp only [processManualMappingsLocal]
    rw [if_neg (by simp [hz])]
    exact ⟨_, _, rfl⟩
  · intro i hi
    exact claimedBefore_flag_iff ms _ i hi

/-- C7 witness: two submitted mappings both targeting the amount field make
the whole request fail. -/
theorem c7_manual_mapping_atomicity_witness :
    ∃ e, processManualMappingsLocal []
        [⟨"colA", "amount", 1⟩, ⟨"colB", "amount", 1⟩] = .error e :=
  ⟨_, (c7_manual_mapping_atomicity []
      [⟨"colA", "amount", 1⟩, ⟨"colB", "amount", 1⟩]).2.1 (by decide)⟩

end ManualMappingService

namespace MapeoService

/- Embedding of api/services/mapeo_service.py run_mapeo (lines 27-64) and of
run_automatic_mapeo_clean (procesos_mapeo/process_column.py lines 497-530).
The session, the completeness analysis, the Azure upload and the
serialization are external effects; they appear as parameters producing
either a result record or an escaping exception (Except.error). -/

structure MapeoOutcome where
  success : Bool
  manualMappingRequired : Bool
  unmappedFieldsCount : ℕ
  errorMsg : Option String
deriving DecidableEq, Repr

/-- run_automatic_mapeo_clean: initialisation failure and any escaping
exception both return a failure record with manual_mapping_required=True;
otherwise the session outcome is passed through. -/
def runAutomaticMapeoClean (initOk : Bool)
    (sessionRun : Except String MapeoOutcome) : MapeoOutcome :=
  if !initOk then
    ⟨false, true, 0, some "Could not initialize automatic mapeo session"⟩
  else
    match sessionRun with
    | .ok r => r
    | .error e => ⟨false, true, 0, some e⟩

/-- The body of run_mapeo inside its try block: when the automatic result is
not successful a RuntimeError is raised; otherwise the remaining steps run
(completeness analysis, upload, convert_numpy_types), themselves able to
raise. -/
def runMapeoBody (autoResult : MapeoOutcome)
    (rest : MapeoOutcome → Except String MapeoOutcome) :
    Except String MapeoOutcome :=
  if !autoResult.success then
    .error ("Automatic mapeo failed: "
      ++ (autoResult.errorMsg.getD "Unknown error"))
  else rest autoResult

/-- run_mapeo: every exception escaping the body is caught and turned into
the failure record with success=False, manual_mapping_required=False and
unmapped_fields_count=0. -/
def runMapeo (body : Except String MapeoOutcome) : MapeoOutcome :=
  match body with
  | .ok r => r
  | .error e => ⟨false, false, 0, some e⟩

/-- C10: whenever any exception escapes inside run_mapeo — including the one
it raises when the automatic session reports failure — the method returns a
record with success=False, manual_mapping_required=False and
unmapped_fields_count=0 instead of propagating, whereas
run_automatic_mapeo_clean returns manual_mapping_required=True on both of
its own failure paths. -/
theorem c10_mapeo_failure_shape :
    (∀ e : String, runMapeo (.error e) = ⟨false, false, 0, some e⟩)
    ∧ (∀ (autoResult : MapeoOutcome)
        (rest : MapeoOutcome → Except String MapeoOutcome),
        autoResult.success = false →
        runMapeo (runMapeoBody autoResult rest)
          = ⟨false, false, 0, some ("Automatic mapeo failed: "
              ++ (autoResult.errorMsg.getD "Unknown error"))⟩)
    ∧ (∀ sessionRun : Except String MapeoOutcome,
        (runAutomaticMapeoClean false sessionRun).success = false
        ∧ (runAutomaticMapeoClean false sessionRun).manualMappingRequired = true)
    ∧ (∀ (initOk : Bool) (e : String),
        (runAutomaticMapeoClean initOk (.error e)).success = false
        ∧ (runAutomaticMapeoClean initOk (.error e)).manualMappingRequired
            = true) := by
  refine ⟨fun e => rfl, ?_, ?_, ?_⟩
  · intro autoResult rest hfail
    simp [runMapeo, runMapeoBody, hfail]
  · intro sessionRun
    simp [runAutomaticMapeoClean]
  · intro initOk e
    cases initOk <;> simp [runAutomaticMapeoClean]

/-- C10 witness: the failure-shape part applied to a concrete failed
automatic result. -/
theorem c10_mapeo_failure_shape_witness :
    runMapeo (runMapeoBody ⟨false, true, 3, some "boom"⟩ (fun r => .ok r))
      = ⟨false, false, 0, some "Automatic mapeo failed: boom"⟩ :=
  c10_mapeo_failure_shape.2.1 ⟨false, true, 3, some "boom"⟩ (fun r => .ok r) rfl

end MapeoService
